import Mathlib

/-!
# umeng push client (`push.go`)

A shallow embedding of the push request builder of `push.go` and the properties of
its setters, of the message assembly of `Push` and of the request signature.

Modelling conventions.

* A Go `string` is a Lean `String` (a valid UTF-8 byte string is the same thing as its
  sequence of code points; the separator `","` is one byte that occurs in no multi-byte
  encoding, so splitting on it is the same on bytes and on code points).
* A Go `int` is an `Int`; the code only compares these values with constants.
* A Go `map[string]V` is an association list `GoMap V` with pairwise distinct keys;
  a map variable that may be `nil` is an `Option (GoMap V)`, `none` being the `nil` map.
  Reading a `nil` map behaves as reading an empty one. `UPush.message` is allocated by
  `NewPush`, the only constructor of the package, so it is a plain `GoMap`.
* An `interface{}` value is a `Value`.
* The clock `time.Now().Unix()` is a parameter `now` of the operations that read it.
-/

namespace Umeng

/-! ## Strings: `strings.Split`, `strings.Join` -/

/-- Entries of a character list cut at every occurrence of the separator character:
one entry more than there are separators, never an empty result. -/
def splitChars (sep : Char) : List Char → List (List Char)
  | [] => [[]]
  | c :: cs =>
    if c = sep then [] :: splitChars sep cs
    else
      match splitChars sep cs with
      | [] => [[c]]
      | w :: ws => (c :: w) :: ws

/-- Go `strings.Split(s, sep)` for a separator of one character (the code only splits
on `","`). -/
def strings_Split (s : String) (sep : Char) : List String :=
  (splitChars sep s.data).map String.mk

/-- Go `strings.Join(elems, sep)`. -/
def strings_Join (elems : List String) (sep : String) : String :=
  String.mk (sep.data.intercalate (elems.map String.data))

/-! ## Maps and dynamic values -/

/-- A Go map with string keys, as the list of its entries. -/
abbrev GoMap (V : Type) := List (String × V)

namespace GoMap

variable {V : Type}

/-- The read `m[key]` with its presence flag. -/
def get : GoMap V → String → Option V
  | [], _ => none
  | (k, v) :: m, key => if k = key then some v else get m key

/-- The assignment `m[key] = val`: the entry of `key` is replaced when there is one,
added otherwise. -/
def set : GoMap V → String → V → GoMap V
  | [], key, val => [(key, val)]
  | (k, v) :: m, key, val =>
    if k = key then (key, val) :: m else (k, v) :: set m key val

/-- The keys of a map. -/
def keys (m : GoMap V) : List String := m.map Prod.fst

/-- Well-formed maps have no repeated key. -/
def WF (m : GoMap V) : Prop := (keys m).Nodup

instance (m : GoMap V) : Decidable (WF m) := by
  unfold WF; infer_instance

end GoMap

/-- A value held in an `interface{}`: the strings and maps the builder stores, and the
JSON-like values a caller may pass to `Body`, `APNs` and `Policy`. -/
inductive Value where
  | str (s : String)
  | int (n : Int)
  | bool (b : Bool)
  | nil
  | slice (vs : List Value)
  | strMap (m : Option (List (String × String)))
  | anyMap (m : Option (List (String × Value)))

/-- A possibly `nil` map read as a map: `nil` has no entries. -/
def entries {V : Type} : Option (GoMap V) → GoMap V
  | none => []
  | some m => m

/-- The builtin `len` on a possibly `nil` map. -/
def len {V : Type} (m : Option (GoMap V)) : Nat := (entries m).length

/-! ## The request -/

def Platform_Android : Int := 0
def Platform_iOS : Int := 1

def PushType_Unicast : Int := 0
def PushType_Listcast : Int := 1
def PushType_Filecast : Int := 2
def PushType_Broadcast : Int := 3
def PushType_Groupcast : Int := 4
def PushType_Customizedcast : Int := 5

def MsgType_Notification : Int := 0
def MsgType_Message : Int := 1

def pushMessageUrl : String := "http://msg.umeng.com/api/send"
def pushTaskStatusUrl : String := "http://msg.umeng.com/api/status"
def pushTaskCacelUrl : String := " http://msg.umeng.com/api/cancel"
def pushFileUploadUrl : String := "http://msg.umeng.com/upload"

/-- The struct `UPush`. -/
structure UPush where
  pushtype : Int
  msgtype : Int
  appkey : String
  secret : String
  policy : Option (GoMap Value)
  extra : Option (GoMap String)
  apns : Option (GoMap Value)
  body : Option (GoMap Value)
  message : GoMap Value

/-- The constructor `NewPush`: the struct literal, the `appkey` entry, and the `switch`
on the cast type, whose `default` case resets the cast type to broadcast. -/
def NewPush (pushtype : Int) (msgtype : Int) (appkey master_secret : String) : UPush :=
  let push : UPush :=
    { pushtype := pushtype, msgtype := msgtype, appkey := appkey, secret := master_secret,
      policy := none, extra := none, apns := none, body := none, message := [] }
  let push := { push with message := push.message.set "appkey" (Value.str appkey) }
  if pushtype = PushType_Unicast then
    { push with message := push.message.set "type" (Value.str "unicast") }
  else if pushtype = PushType_Listcast then
    { push with message := push.message.set "type" (Value.str "listcast") }
  else if pushtype = PushType_Filecast then
    { push with message := push.message.set "type" (Value.str "filecast") }
  else if pushtype = PushType_Broadcast then
    { push with message := push.message.set "type" (Value.str "broadcast") }
  else if pushtype = PushType_Groupcast then
    { push with message := push.message.set "type" (Value.str "groupcast") }
  else if pushtype = PushType_Customizedcast then
    { push with message := push.message.set "type" (Value.str "customizedcast") }
  else
    { push with
      pushtype := PushType_Broadcast
      message := push.message.set "type" (Value.str "broadcast") }

/-- The method `Token`. The log line of the truncating branch is not part of the state. -/
def Token (p : UPush) (token : String) : UPush :=
  if p.pushtype ≠ PushType_Unicast ∧ p.pushtype ≠ PushType_Listcast then p
  else
    let tokens := strings_Split token ','
    let size := tokens.length
    if size = 0 then p
    else if p.pushtype = PushType_Unicast then
      { p with message := p.message.set "device_tokens" (Value.str (tokens.headD "")) }
    else if p.pushtype = PushType_Listcast then
      if size > 500 then
        let tmpTokens := tokens.take 500
        let strTokens := strings_Join tmpTokens ","
        { p with message := p.message.set "device_tokens" (Value.str strTokens) }
      else
        { p with message := p.message.set "devicd_tokens" (Value.str token) }
    else p

/-- The method `Alias` (its second parameter, `alias` in the source, is `aliasv` here). -/
def Alias (p : UPush) (typ aliasv : String) : UPush :=
  if p.pushtype ≠ PushType_Customizedcast then p
  else
    let p := { p with message := p.message.set "alias_type" (Value.str typ) }
    let aliases := strings_Split aliasv ','
    if aliases.length > 50 then
      let tmpAliases := aliases.take 50
      { p with message := p.message.set "alias" (Value.str (strings_Join tmpAliases ",")) }
    else
      { p with message := p.message.set "alias" (Value.str aliasv) }

/-- The method `FileId`. -/
def FileId (p : UPush) (id : String) : UPush :=
  if p.pushtype ≠ PushType_Filecast then p
  else { p with message := p.message.set "file_id" (Value.str id) }

/-- The method `Filter`, which returns its receiver. -/
def Filter (p : UPush) (_filter : String) : UPush := p

/-- The method `Extra`: the map is allocated on first use. -/
def Extra (p : UPush) (key value : String) : UPush :=
  let p := if p.extra.isNone then { p with extra := some [] } else p
  { p with extra := some ((entries p.extra).set key value) }

/-- The method `Body`. -/
def Body (p : UPush) (key : String) (value : Value) : UPush :=
  if p.msgtype = MsgType_Message ∧ key ≠ "custom" then p
  else
    let p := if p.body.isNone then { p with body := some [] } else p
    { p with body := some ((entries p.body).set key value) }

/-- The method `APNs`. -/
def APNs (p : UPush) (key : String) (value : Value) : UPush :=
  let p := if p.apns.isNone then { p with apns := some [] } else p
  { p with apns := some ((entries p.apns).set key value) }

/-- The method `Policy`. -/
def Policy (p : UPush) (key : String) (value : Value) : UPush :=
  let p := if p.policy.isNone then { p with policy := some [] } else p
  { p with policy := some ((entries p.policy).set key value) }

/-- The method `Mode`. -/
def Mode (p : UPush) (production : Bool) : UPush :=
  if production then
    { p with message := p.message.set "production_mode" (Value.str "true") }
  else
    { p with message := p.message.set "production_mode" (Value.str "false") }

/-- The method `Description`. -/
def Description (p : UPush) (desc : String) : UPush :=
  { p with message := p.message.set "description" (Value.str desc) }

/-- The method `ThirdpartyId`. -/
def ThirdpartyId (p : UPush) (id : String) : UPush :=
  { p with message := p.message.set "thirdparty_id" (Value.str id) }

/-! ## Message assembly of `Push` -/

/-- Go `fmt.Sprintf("%v", n)` for an `int64`: the decimal digits, with a minus sign for a
negative number. -/
def fmtInt (n : Int) : String :=
  match n with
  | Int.ofNat m => String.mk (Nat.toDigits 10 m)
  | Int.negSucc m => String.mk ('-' :: Nat.toDigits 10 (m + 1))

/-- The local `payload` of `Push` when the `if`/`else` on the platform is done
(lines 223 to 240). The `range` loop visits the entries of `p.extra` in list order. -/
def Push.payload (p : UPush) (platform : Int) : GoMap Value :=
  let payload : GoMap Value := []
  if platform = Platform_Android then
    if p.msgtype = MsgType_Notification then
      let payload := payload.set "display_type" (Value.str "notification")
      payload.set "body" (Value.anyMap p.body)
    else
      let payload := payload.set "display_type" (Value.str "message")
      let payload := payload.set "body" (Value.anyMap p.body)
      if len p.extra > 0 then payload.set "extra" (Value.strMap p.extra) else payload
  else
    let payload := payload.set "aps" (Value.anyMap p.apns)
    (entries p.extra).foldl (fun payload kv => payload.set kv.1 (Value.str kv.2)) payload

/-- The local `policy` of `Push` after its `range` loop (lines 243 to 250): the entries
of `p.policy` in list order, the key `out_biz_no` skipped on iOS. -/
def Push.policy (p : UPush) (platform : Int) : GoMap Value :=
  (entries p.policy).foldl
    (fun policy kv =>
      if platform = Platform_iOS ∧ kv.1 = "out_biz_no" then policy
      else policy.set kv.1 kv.2)
    []

/-- The request after the first part of `Push` (lines 221 to 251): the message has its
`timestamp`, `payload` and `policy` entries, and is ready to be serialized. The payload
holds the values that `p.body`, `p.extra` and `p.apns` have at this point. In Go it holds
the maps themselves, so a `Body`, `Extra` or `APNs` call made after `Push` on a map that
is already allocated also shows in `message["payload"]`; the embedding describes the
message up to the serialization that `Push` does next, not that later sharing. -/
def Push.assemble (p : UPush) (platform : Int) (now : Int) : UPush :=
  let p := { p with message := p.message.set "timestamp" (Value.str (fmtInt now)) }
  let payload := Push.payload p platform
  let p := { p with message := p.message.set "payload" (Value.anyMap (some payload)) }
  let policy := Push.policy p platform
  { p with message := p.message.set "policy" (Value.anyMap (some policy)) }

/-- The maps of a request built by `NewPush` and the setters have no repeated key. -/
def UPush.WF (p : UPush) : Prop :=
  GoMap.WF (entries p.policy) ∧ GoMap.WF (entries p.extra) ∧ GoMap.WF (entries p.apns) ∧
    GoMap.WF (entries p.body) ∧ GoMap.WF p.message

/-! ## MD5 (RFC 1321), as computed by Go `crypto/md5`, and the signature -/

/-- The UTF-8 bytes of a character. -/
def utf8Char (c : Char) : List Nat :=
  let v := c.toNat
  if v ≤ 0x7f then [v]
  else if v ≤ 0x7ff then [0xc0 + v / 64, 0x80 + v % 64]
  else if v ≤ 0xffff then [0xe0 + v / 4096, 0x80 + v / 64 % 64, 0x80 + v % 64]
  else [0xf0 + v / 262144, 0x80 + v / 4096 % 64, 0x80 + v / 64 % 64, 0x80 + v % 64]

/-- The bytes of a Go string. -/
def stringBytes (s : String) : List Nat := s.data.flatMap utf8Char

/-- The per-step left rotations of MD5. -/
def md5Shift : List Nat :=
  [
    7, 12, 17, 22, 7, 12, 17, 22, 7, 12, 17, 22, 7, 12, 17, 22,
    5, 9, 14, 20, 5, 9, 14, 20, 5, 9, 14, 20, 5, 9, 14, 20,
    4, 11, 16, 23, 4, 11, 16, 23, 4, 11, 16, 23, 4, 11, 16, 23,
    6, 10, 15, 21, 6, 10, 15, 21, 6, 10, 15, 21, 6, 10, 15, 21]

/-- The per-step additive constants of MD5, `floor (2^32 * |sin (i + 1)|)`. -/
def md5Const : List Nat :=
  [
    0xd76aa478, 0xe8c7b756, 0x242070db, 0xc1bdceee, 0xf57c0faf, 0x4787c62a,
    0xa8304613, 0xfd469501, 0x698098d8, 0x8b44f7af, 0xffff5bb1, 0x895cd7be,
    0x6b901122, 0xfd987193, 0xa679438e, 0x49b40821, 0xf61e2562, 0xc040b340,
    0x265e5a51, 0xe9b6c7aa, 0xd62f105d, 0x02441453, 0xd8a1e681, 0xe7d3fbc8,
    0x21e1cde6, 0xc33707d6, 0xf4d50d87, 0x455a14ed, 0xa9e3e905, 0xfcefa3f8,
    0x676f02d9, 0x8d2a4c8a, 0xfffa3942, 0x8771f681, 0x6d9d6122, 0xfde5380c,
    0xa4beea44, 0x4bdecfa9, 0xf6bb4b60, 0xbebfbc70, 0x289b7ec6, 0xeaa127fa,
    0xd4ef3085, 0x04881d05, 0xd9d4d039, 0xe6db99e5, 0x1fa27cf8, 0xc4ac5665,
    0xf4292244, 0x432aff97, 0xab9423a7, 0xfc93a039, 0x655b59c3, 0x8f0ccc92,
    0xffeff47d, 0x85845dd1, 0x6fa87e4f, 0xfe2ce6e0, 0xa3014314, 0x4e0811a1,
    0xf7537e82, 0xbd3af235, 0x2ad7d2bb, 0xeb86d391]

/-- Rotation of a 32-bit word to the left. -/
def rotl32 (x c : Nat) : Nat := (x <<< c ||| x >>> (32 - c)) % 2 ^ 32

/-- Complement of a 32-bit word. -/
def not32 (x : Nat) : Nat := x ^^^ 0xffffffff

/-- The four 32-bit words of the MD5 state. -/
structure MD5State where
  a : Nat
  b : Nat
  c : Nat
  d : Nat

/-- The initial MD5 state. -/
def md5Init : MD5State := ⟨0x67452301, 0xefcdab89, 0x98badcfe, 0x10325476⟩

/-- A little-endian 32-bit word from four bytes. -/
def leWord (bs : List Nat) : Nat :=
  bs.getD 0 0 + bs.getD 1 0 * 2 ^ 8 + bs.getD 2 0 * 2 ^ 16 + bs.getD 3 0 * 2 ^ 24

/-- The sixteen words of a 64-byte block. -/
def blockWords (block : List Nat) : List Nat :=
  (List.range 16).map fun i => leWord ((block.drop (4 * i)).take 4)

/-- One of the 64 steps of the MD5 block function. -/
def md5Step (m : List Nat) (st : MD5State) (i : Nat) : MD5State :=
  let f :=
    if i < 16 then (st.b &&& st.c) ||| (not32 st.b &&& st.d)
    else if i < 32 then (st.d &&& st.b) ||| (not32 st.d &&& st.c)
    else if i < 48 then st.b ^^^ st.c ^^^ st.d
    else st.c ^^^ (st.b ||| not32 st.d)
  let g :=
    if i < 16 then i
    else if i < 32 then (5 * i + 1) % 16
    else if i < 48 then (3 * i + 5) % 16
    else 7 * i % 16
  let f := (f + st.a + md5Const.getD i 0 + m.getD g 0) % 2 ^ 32
  ⟨st.d, (st.b + rotl32 f (md5Shift.getD i 0)) % 2 ^ 32, st.b, st.c⟩

/-- The MD5 block function: 64 steps, then the addition of the incoming state. -/
def md5Block (st : MD5State) (block : List Nat) : MD5State :=
  let r := (List.range 64).foldl (md5Step (blockWords block)) st
  ⟨(st.a + r.a) % 2 ^ 32, (st.b + r.b) % 2 ^ 32, (st.c + r.c) % 2 ^ 32,
    (st.d + r.d) % 2 ^ 32⟩

/-- The message with the MD5 padding: a `0x80` byte, zero bytes up to 56 modulo 64, and
the bit length as a little-endian 64-bit number. -/
def md5Pad (msg : List Nat) : List Nat :=
  let n := msg.length
  let zeros := (55 + 64 - n % 64) % 64
  let bits := n * 8 % 2 ^ 64
  msg ++ 0x80 :: List.replicate zeros 0 ++ (List.range 8).map fun i => bits / 2 ^ (8 * i) % 256

/-- The block function over the first `n` 64-byte blocks of a byte list. -/
def md5Blocks : Nat → MD5State → List Nat → MD5State
  | 0, st, _ => st
  | n + 1, st, bs => md5Blocks n (md5Block st (bs.take 64)) (bs.drop 64)

/-- The four bytes of a 32-bit word, least significant first. -/
def leBytes (w : Nat) : List Nat :=
  [w % 256, w / 2 ^ 8 % 256, w / 2 ^ 16 % 256, w / 2 ^ 24 % 256]

/-- The 16-byte MD5 digest of a byte list (`hash.Sum(nil)` after the bytes were written
to a new hash). -/
def md5Sum (msg : List Nat) : List Nat :=
  let padded := md5Pad msg
  let st := md5Blocks (padded.length / 64) md5Init padded
  leBytes st.a ++ leBytes st.b ++ leBytes st.c ++ leBytes st.d

/-- A lowercase hexadecimal digit. -/
def hexDigit (n : Nat) : Char := "0123456789abcdef".data.getD n '0'

/-- The two lowercase hexadecimal digits of a byte. -/
def hexByte (b : Nat) : List Char := [hexDigit (b / 16 % 16), hexDigit (b % 16)]

/-- Go `fmt.Sprintf("%02x", bs)` for a byte slice: two lowercase hexadecimal digits per
byte, padded on the left with zeros to the minimal width 2. -/
def fmtHex02 (bs : List Nat) : String :=
  let digits := bs.flatMap hexByte
  String.mk (List.replicate (2 - digits.length) '0' ++ digits)

/-- The method `sign`. -/
def sign (p : UPush) (method url message : String) : String :=
  let signstr := method ++ url ++ message ++ p.secret
  fmtHex02 (md5Sum (stringBytes signstr))

/-! ## Transport -/

/-- What the terminal operations use of the outside world: the JSON serializer and the
HTTP client (a POST and the read of the whole response body). -/
structure Transport where
  jsonMarshal : Value → Except String String
  httpPost : (url contentType body : String) → Except String String

/-- The method `Push`: the request it leaves and its result. -/
def Push (t : Transport) (p : UPush) (platform : Int) (now : Int) :
    UPush × Except String String :=
  let p := Push.assemble p platform now
  match t.jsonMarshal (Value.anyMap (some p.message)) with
  | Except.error err => (p, Except.error err)
  | Except.ok body =>
    let signature := sign p "POST" pushMessageUrl body
    let url := pushMessageUrl ++ "?sign=" ++ signature
    (p, t.httpPost url "application/json;charset=utf-8" body)

/-- The message that the method `post` serializes. A key equal to `appkey` or
`timestamp` is a duplicate key of the map literal, which Go rejects only for constant
keys; the later entry of the literal then takes effect. -/
def post.msg (p : UPush) (key value : String) (now : Int) : GoMap String :=
  let msg : GoMap String := []
  let msg := msg.set "appkey" p.appkey
  let msg := msg.set key value
  msg.set "timestamp" (fmtInt now)

/-- The method `post`. -/
def post (t : Transport) (p : UPush) (url key value : String) (now : Int) :
    Except String String :=
  let msg := post.msg p key value now
  match t.jsonMarshal (Value.strMap (some msg)) with
  | Except.error err => Except.error err
  | Except.ok body =>
    let signature := sign p "POST" url body
    let uri := url ++ "?sign=" ++ signature
    t.httpPost uri "application/json;charset=utf-8" body

/-- The method `Status`. -/
def Status (t : Transport) (p : UPush) (taskId : String) (now : Int) :
    Except String String :=
  post t p pushTaskStatusUrl "task_id" taskId now

/-- The method `Cancel`. -/
def Cancel (t : Transport) (p : UPush) (taskId : String) (now : Int) :
    Except String String :=
  post t p pushTaskCacelUrl "task_id" taskId now

/-- The method `Upload`. -/
def Upload (t : Transport) (p : UPush) (content : String) (now : Int) :
    Except String String :=
  post t p pushFileUploadUrl "content" content now

/-! ## Sequences of builder calls -/

/-- The wire name of a cast type, as `NewPush` writes it under `type`; no name for an
integer that is not one of the six cast types. -/
def wireName (c : Int) : Option String :=
  if c = PushType_Unicast then some "unicast"
  else if c = PushType_Listcast then some "listcast"
  else if c = PushType_Filecast then some "filecast"
  else if c = PushType_Broadcast then some "broadcast"
  else if c = PushType_Groupcast then some "groupcast"
  else if c = PushType_Customizedcast then some "customizedcast"
  else none

/-- A call on a request: one of the setters, or the message assembly of `Push` for a
platform at a clock value. -/
inductive Op where
  | token (t : String)
  | aliasOp (typ aliasv : String)
  | fileId (id : String)
  | filter (f : String)
  | extra (key value : String)
  | body (key : String) (value : Value)
  | apns (key : String) (value : Value)
  | policy (key : String) (value : Value)
  | mode (production : Bool)
  | description (desc : String)
  | thirdpartyId (id : String)
  | push (platform now : Int)

/-- The request after a call. -/
def Op.apply (p : UPush) : Op → UPush
  | Op.token t => Token p t
  | Op.aliasOp typ aliasv => Alias p typ aliasv
  | Op.fileId id => FileId p id
  | Op.filter f => Filter p f
  | Op.extra key value => Extra p key value
  | Op.body key value => Body p key value
  | Op.apns key value => APNs p key value
  | Op.policy key value => Policy p key value
  | Op.mode production => Mode p production
  | Op.description desc => Description p desc
  | Op.thirdpartyId id => ThirdpartyId p id
  | Op.push platform now => Push.assemble p platform now

/-- The request after a sequence of calls, first call first. -/
def run (p : UPush) (ops : List Op) : UPush := ops.foldl Op.apply p

set_option maxRecDepth 100000

/-! ## Facts about splitting and joining -/

theorem splitChars_ne_nil (sep : Char) (l : List Char) : splitChars sep l ≠ [] := by
  induction l with
  | nil => simp [splitChars]
  | cons c cs ih =>
    unfold splitChars
    split
    · simp
    · split <;> simp

theorem intercalate_one (sep w : List Char) : sep.intercalate [w] = w := by
  simp [List.intercalate]

theorem intercalate_cons_cons (sep w w' : List Char) (ws : List (List Char)) :
    sep.intercalate (w :: w' :: ws) = w ++ sep ++ sep.intercalate (w' :: ws) := by
  simp [List.intercalate]

theorem intercalate_splitChars (sep : Char) (l : List Char) :
    [sep].intercalate (splitChars sep l) = l := by
  induction l with
  | nil => simp [splitChars, List.intercalate]
  | cons c cs ih =>
    unfold splitChars
    split
    · next h =>
      rcases hs : splitChars sep cs with _ | ⟨w, ws⟩
      · exact absurd hs (splitChars_ne_nil sep cs)
      · rw [hs] at ih
        rw [intercalate_cons_cons, ih, h]; rfl
    · rcases hs : splitChars sep cs with _ | ⟨w, ws⟩
      · exact absurd hs (splitChars_ne_nil sep cs)
      · rw [hs] at ih
        cases ws with
        | nil => 
          rw [intercalate_one] at ih
          simp [intercalate_one, ih]
        | cons w' ws =>
          rw [intercalate_cons_cons] at ih
          simp only [intercalate_cons_cons]
          rw [← ih]; simp

theorem not_mem_of_mem_splitChars (sep : Char) (l : List Char) :
    ∀ w ∈ splitChars sep l, sep ∉ w := by
  induction l with
  | nil => simp [splitChars]
  | cons c cs ih =>
    unfold splitChars
    split
    · intro w hw
      rcases List.mem_cons.1 hw with h | h
      · subst h; simp
      · exact ih w h
    · next hc =>
      rcases hs : splitChars sep cs with _ | ⟨w, ws⟩
      · exact absurd hs (splitChars_ne_nil sep cs)
      · rw [hs] at ih
        intro u hu
        rcases List.mem_cons.1 hu with h | h
        · subst h
          have := ih w (List.mem_cons_self _ _)
          simp only [List.mem_cons, not_or]
          exact ⟨fun e => hc e.symm, this⟩
        · exact ih u (List.mem_cons_of_mem _ h)

theorem splitChars_of_not_mem (sep : Char) (w : List Char) (h : sep ∉ w) :
    splitChars sep w = [w] := by
  induction w with
  | nil => rfl
  | cons c cs ih =>
    simp only [List.mem_cons, not_or] at h
    unfold splitChars
    rw [if_neg (fun e => h.1 e.symm), ih h.2]

theorem splitChars_append_sep (sep : Char) (w rest : List Char) (h : sep ∉ w) :
    splitChars sep (w ++ sep :: rest) = w :: splitChars sep rest := by
  induction w with
  | nil => simp [splitChars]
  | cons c cs ih =>
    simp only [List.mem_cons, not_or] at h
    simp only [List.cons_append]
    conv_lhs => unfold splitChars
    rw [if_neg (fun e => h.1 e.symm), ih h.2]

theorem splitChars_intercalate (sep : Char) (ws : List (List Char)) (hne : ws ≠ [])
    (h : ∀ w ∈ ws, sep ∉ w) : splitChars sep ([sep].intercalate ws) = ws := by
  induction ws with
  | nil => exact absurd rfl hne
  | cons w ws ih =>
    cases ws with
    | nil => 
      rw [intercalate_one]
      exact splitChars_of_not_mem sep w (h w (List.mem_cons_self _ _))
    | cons w' ws =>
      rw [intercalate_cons_cons]
      simp only [List.append_assoc, List.singleton_append]
      rw [splitChars_append_sep sep w _ (h w (List.mem_cons_self _ _))]
      rw [ih (by simp) (fun u hu => h u (List.mem_cons_of_mem _ hu))]

theorem intercalate_take_isPrefix (sep : List Char) (ws : List (List Char)) (n : Nat) :
    sep.intercalate (ws.take n) <+: sep.intercalate ws := by
  induction ws generalizing n with
  | nil => simp
  | cons w ws ih =>
    cases n with
    | zero => simp [List.intercalate]
    | succ n =>
      cases ws with
      | nil => simp
      | cons w' ws =>
        cases n with
        | zero => 
          simp only [List.take_succ_cons, List.take_zero, intercalate_one, intercalate_cons_cons]
          rw [List.append_assoc]
          exact List.prefix_append _ _
        | succ n =>
          have := ih (n + 1)
          simp only [List.take_succ_cons] at this ⊢
          rw [intercalate_cons_cons, intercalate_cons_cons]
          exact (List.prefix_append_right_inj _).2 this

theorem head_splitChars (sep : Char) (l : List Char) :
    (splitChars sep l).headD [] = l.takeWhile (fun c => c != sep) := by
  induction l with
  | nil => rfl
  | cons c cs ih =>
    unfold splitChars
    split
    · next h => simp [h]
    · next h =>
      rcases hs : splitChars sep cs with _ | ⟨w, ws⟩
      · exact absurd hs (splitChars_ne_nil sep cs)
      · rw [hs] at ih
        simp at ih
        have hb : (c != sep) = true := by simpa using h
        simp [List.takeWhile, hb, ih]

theorem length_splitChars (sep : Char) (l : List Char) :
    (splitChars sep l).length = l.count sep + 1 := by
  induction l with
  | nil => rfl
  | cons c cs ih =>
    unfold splitChars
    split
    · next h => simp [h, ih]
    · next h =>
      rcases hs : splitChars sep cs with _ | ⟨w, ws⟩
      · exact absurd hs (splitChars_ne_nil sep cs)
      · rw [hs] at ih
        have : (c == sep) = false := by simpa using h
        simp [List.count_cons, this] at ih ⊢
        omega

theorem strings_Split_length (s : String) (sep : Char) :
    (strings_Split s sep).length = s.data.count sep + 1 := by
  simp [strings_Split, length_splitChars]

theorem strings_Split_ne_nil (s : String) (sep : Char) : strings_Split s sep ≠ [] := by
  simp [strings_Split, splitChars_ne_nil]

theorem map_data_strings_Split (s : String) (sep : Char) :
    (strings_Split s sep).map String.data = splitChars sep s.data := by
  simp [strings_Split, Function.comp_def]

theorem strings_Join_take_data (s : String) (sep : Char) (n : Nat) :
    (strings_Join ((strings_Split s sep).take n) (String.mk [sep])).data
      = [sep].intercalate ((splitChars sep s.data).take n) := by
  simp only [strings_Join]
  rw [List.map_take, map_data_strings_Split]

theorem strings_Join_Split (s : String) (sep : Char) :
    strings_Join (strings_Split s sep) (String.mk [sep]) = s := by
  have h := strings_Join_take_data s sep (splitChars sep s.data).length
  rw [List.take_length, intercalate_splitChars] at h
  have hl : (strings_Split s sep).length = (splitChars sep s.data).length := by
    simp [strings_Split]
  rw [← hl, List.take_length] at h
  exact String.ext h

theorem strings_Split_Join_take (s : String) (sep : Char) (n : Nat) (hn : 0 < n) :
    strings_Split (strings_Join ((strings_Split s sep).take n) (String.mk [sep])) sep
      = (strings_Split s sep).take n := by
  unfold strings_Split
  rw [show (strings_Join ((List.map String.mk (splitChars sep s.data)).take n)
      (String.mk [sep])).data = [sep].intercalate ((splitChars sep s.data).take n) from
    strings_Join_take_data s sep n]
  rw [splitChars_intercalate, ← List.map_take]
  · intro h
    rcases List.take_eq_nil_iff.1 h with h | h
    · omega
    · exact splitChars_ne_nil sep s.data h
  · intro w hw
    exact not_mem_of_mem_splitChars sep s.data w (List.mem_of_mem_take hw)

theorem strings_Join_take_isPrefix (s : String) (sep : Char) (n : Nat) :
    (strings_Join ((strings_Split s sep).take n) (String.mk [sep])).data <+: s.data := by
  rw [strings_Join_take_data]
  have h := intercalate_take_isPrefix [sep] (splitChars sep s.data) n
  rwa [intercalate_splitChars] at h

theorem strings_Split_headD (s : String) (sep : Char) :
    (strings_Split s sep).headD "" = String.mk (s.data.takeWhile fun c => c != sep) := by
  have h := head_splitChars sep s.data
  unfold strings_Split
  rcases hs : splitChars sep s.data with _ | ⟨w, ws⟩
  · exact absurd hs (splitChars_ne_nil sep s.data)
  · rw [hs] at h
    simp at h
    simp [h]

/-! ## Facts about maps -/

namespace GoMap

variable {V : Type}

theorem get_set_self (m : GoMap V) (k : String) (v : V) : (m.set k v).get k = some v := by
  induction m with
  | nil => simp [set, get]
  | cons e m ih =>
    obtain ⟨k', v'⟩ := e
    by_cases h : k' = k
    · simp [set, get, h]
    · simp [set, get, h, ih]

theorem get_set_ne (m : GoMap V) (k k' : String) (v : V) (h : k ≠ k') :
    (m.set k v).get k' = m.get k' := by
  induction m with
  | nil => simp [set, get, h]
  | cons e m ih =>
    obtain ⟨k0, v0⟩ := e
    by_cases h0 : k0 = k
    · subst h0; simp [set, get, h]
    · by_cases h1 : k0 = k'
      · subst h1; simp [set, get, h0]
      · simp [set, get, h0, h1, ih]

end GoMap

/-! ## The setters `Token` and `Alias` -/

theorem comma_eq : "," = String.mk [','] := rfl

/-- C1: on a request of cast type Listcast, `Token(t)` stores `t` unchanged when `t` has
at most 500 comma-separated entries (under the key `devicd_tokens`), and otherwise
stores the first 500 entries of `t` joined by commas (under the key `device_tokens`);
the truncated value splits back into exactly those 500 entries and is a prefix of `t`. -/
theorem Token_listcast_stored (p : UPush) (t : String)
    (h : p.pushtype = PushType_Listcast) :
    ((strings_Split t ',').length ≤ 500 →
      Token p t = { p with message := p.message.set "devicd_tokens" (Value.str t) } ∧
      (Token p t).message.get "devicd_tokens" = some (Value.str t)) ∧
    (500 < (strings_Split t ',').length →
      Token p t = { p with
          message := p.message.set "device_tokens"
              (Value.str (strings_Join ((strings_Split t ',').take 500) ",")) } ∧
      (Token p t).message.get "device_tokens"
        = some (Value.str (strings_Join ((strings_Split t ',').take 500) ",")) ∧
      strings_Split (strings_Join ((strings_Split t ',').take 500) ",") ','
        = (strings_Split t ',').take 500 ∧
      (strings_Split (strings_Join ((strings_Split t ',').take 500) ",") ',').length = 500 ∧
      (strings_Join ((strings_Split t ',').take 500) ",").data <+: t.data) := by
  have hne : strings_Split t ',' ≠ [] := strings_Split_ne_nil t ','
  have hlen : (strings_Split t ',').length ≠ 0 := fun e => hne (List.length_eq_zero.1 e)
  have h0 : p.pushtype ≠ PushType_Unicast := by rw [h]; decide
  refine ⟨fun hle => ?_, fun hgt => ?_⟩
  · have e : Token p t
        = { p with message := p.message.set "devicd_tokens" (Value.str t) } := by
      unfold Token
      simp only [h, gt_iff_lt]
      rw [if_neg (by decide), if_neg hlen, if_neg (by decide), if_pos trivial,
        if_neg (by omega)]
    exact ⟨e, by rw [e]; exact GoMap.get_set_self _ _ _⟩
  · have e : Token p t = { p with
      message := p.message.set "device_tokens"
          (Value.str (strings_Join ((strings_Split t ',').take 500) ",")) } := by
      unfold Token
      simp only [h, gt_iff_lt]
      rw [if_neg (by decide), if_neg hlen, if_neg (by decide), if_pos trivial,
        if_pos hgt]
    have hs := strings_Split_Join_take t ',' 500 (by decide)
    refine ⟨e, by rw [e]; exact GoMap.get_set_self _ _ _, ?_, ?_, ?_⟩
    · rw [comma_eq]; exact hs
    · rw [comma_eq, hs, List.length_take]; omega
    · rw [comma_eq]; exact strings_Join_take_isPrefix t ',' 500

/-- C2: on a request of cast type Unicast, `Token(t)` stores under `device_tokens` the
part of `t` before its first comma, which is all of `t` when `t` has no comma, and which
contains no comma. -/
theorem Token_unicast_first (p : UPush) (t : String)
    (h : p.pushtype = PushType_Unicast) :
    Token p t = { p with
        message := p.message.set "device_tokens"
            (Value.str (String.mk (t.data.takeWhile fun c => c != ','))) } ∧
    (Token p t).message.get "device_tokens"
      = some (Value.str (String.mk (t.data.takeWhile fun c => c != ','))) ∧
    ',' ∉ t.data.takeWhile (fun c => c != ',') ∧
    (t.data.takeWhile fun c => c != ',') <+: t.data ∧
    (∀ rest, t.data = (t.data.takeWhile fun c => c != ',') ++ rest →
      rest = [] ∨ rest.head? = some ',') ∧
    (',' ∉ t.data → String.mk (t.data.takeWhile fun c => c != ',') = t) := by
  have hne : strings_Split t ',' ≠ [] := strings_Split_ne_nil t ','
  have hlen : (strings_Split t ',').length ≠ 0 := fun e => hne (List.length_eq_zero.1 e)
  have e : Token p t = { p with
      message := p.message.set "device_tokens"
          (Value.str (String.mk (t.data.takeWhile fun c => c != ','))) } := by
    unfold Token
    simp only [h]
    rw [if_neg (by decide), if_neg hlen, if_pos trivial, strings_Split_headD]
  refine ⟨e, by rw [e]; exact GoMap.get_set_self _ _ _, ?_, List.takeWhile_prefix _, ?_, ?_⟩
  · intro hm
    have := List.mem_takeWhile_imp hm
    simp at this
  · intro rest hrest
    have hd : rest = t.data.dropWhile fun c => c != ',' := by
      have := List.takeWhile_append_dropWhile (fun c => c != ',') t.data
      rw [← this] at hrest
      simp only [List.takeWhile_append_dropWhile] at hrest
      have h2 : (t.data.takeWhile fun c => c != ',') ++ (t.data.dropWhile fun c => c != ',')
          = (t.data.takeWhile fun c => c != ',') ++ rest := by
        rw [List.takeWhile_append_dropWhile]; exact hrest
      exact (List.append_cancel_left h2).symm
    cases hr : rest with
    | nil => exact Or.inl rfl
    | cons c cs =>
      right
      rw [hr] at hd
      have := List.head_dropWhile_not (fun c => c != ',') t.data (by rw [← hd]; simp)
      simp only [← hd, List.head_cons] at this
      simpa using this
  · intro hno
    have : (t.data.takeWhile fun c => c != ',') = t.data := by
      rw [List.takeWhile_eq_self_iff]
      intro c hc
      simp only [bne_iff_ne, ne_eq]
      intro e; exact hno (e ▸ hc)
    rw [this]

/-- C3: on a request of cast type Customizedcast, `Alias(ty, a)` stores `ty` under
`alias_type`, and under `alias` the string `a` unchanged when it has at most 50
comma-separated entries, the first 50 entries joined by commas otherwise. -/
theorem Alias_customizedcast_stored (p : UPush) (ty a : String)
    (h : p.pushtype = PushType_Customizedcast) :
    (Alias p ty a).message.get "alias_type" = some (Value.str ty) ∧
    ((strings_Split a ',').length ≤ 50 →
      (Alias p ty a).message.get "alias" = some (Value.str a)) ∧
    (50 < (strings_Split a ',').length →
      (Alias p ty a).message.get "alias"
        = some (Value.str (strings_Join ((strings_Split a ',').take 50) ",")) ∧
      strings_Split (strings_Join ((strings_Split a ',').take 50) ",") ','
        = (strings_Split a ',').take 50 ∧
      (strings_Join ((strings_Split a ',').take 50) ",").data <+: a.data) ∧
    Alias p ty a = { p with
        message := (p.message.set "alias_type" (Value.str ty)).set "alias"
            (Value.str (if 50 < (strings_Split a ',').length
            then strings_Join ((strings_Split a ',').take 50) "," else a)) } := by
  have e : Alias p ty a
      = { p with
          message := (p.message.set "alias_type" (Value.str ty)).set "alias"
              (Value.str (if 50 < (strings_Split a ',').length
              then strings_Join ((strings_Split a ',').take 50) "," else a)) } := by
    unfold Alias
    simp only [h, gt_iff_lt]
    rw [if_neg (by decide)]
    split <;> rfl
  have hk : ("alias" : String) ≠ "alias_type" := by decide
  refine ⟨?_, fun hle => ?_, fun hgt => ⟨?_, ?_, ?_⟩, e⟩
  · rw [e]
    show GoMap.get (GoMap.set _ _ _) _ = _
    rw [GoMap.get_set_ne _ _ _ _ hk, GoMap.get_set_self]
  · rw [e]
    show GoMap.get (GoMap.set _ _ _) _ = _
    rw [GoMap.get_set_self, if_neg (by omega)]
  · rw [e]
    show GoMap.get (GoMap.set _ _ _) _ = _
    rw [GoMap.get_set_self, if_pos hgt]
  · rw [comma_eq]; exact strings_Split_Join_take a ',' 50 (by decide)
  · rw [comma_eq]; exact strings_Join_take_isPrefix a ',' 50

theorem Token_listcast_stored_witness :
    (Token (NewPush PushType_Listcast MsgType_Notification "ak1" "sec1") "t1,t2").message
      = [("appkey", Value.str "ak1"), ("type", Value.str "listcast"),
          ("devicd_tokens", Value.str "t1,t2")] ∧
    (Token (NewPush PushType_Listcast MsgType_Notification "ak1" "sec1")
        (String.mk (List.replicate 500 ','))).message
      = [("appkey", Value.str "ak1"), ("type", Value.str "listcast"),
          ("device_tokens", Value.str (String.mk (List.replicate 499 ',')))] :=
  ⟨by rw [((Token_listcast_stored _ "t1,t2" rfl).1 (by decide)).1]; rfl,
   by rw [((Token_listcast_stored _ (String.mk (List.replicate 500 ',')) rfl).2 (by decide)).1]
      rw [show strings_Join ((strings_Split (String.mk (List.replicate 500 ',')) ',').take 500) ","
        = String.mk (List.replicate 499 ',') from by decide]
      rfl⟩

theorem Token_unicast_first_witness :
    (Token (NewPush PushType_Unicast MsgType_Notification "ak1" "sec1") "t1,t2").message
      = [("appkey", Value.str "ak1"), ("type", Value.str "unicast"),
          ("device_tokens", Value.str "t1")] := by
  rw [(Token_unicast_first _ "t1,t2" rfl).1]; rfl

theorem Alias_customizedcast_stored_witness :
    (Alias (NewPush PushType_Customizedcast MsgType_Notification "ak1" "sec1") "uid" "a,b").message
      = [("appkey", Value.str "ak1"), ("type", Value.str "customizedcast"),
          ("alias_type", Value.str "uid"), ("alias", Value.str "a,b")] ∧
    (Alias (NewPush PushType_Customizedcast MsgType_Notification "ak1" "sec1") "uid"
        (String.mk (List.replicate 50 ','))).message.get "alias"
      = some (Value.str (String.mk (List.replicate 49 ','))) :=
  ⟨by rw [(Alias_customizedcast_stored _ "uid" "a,b" rfl).2.2.2]; rfl,
   by rw [((Alias_customizedcast_stored _ "uid" (String.mk (List.replicate 50 ',')) rfl).2.2.1
        (by decide)).1]
      rw [show strings_Join ((strings_Split (String.mk (List.replicate 50 ',')) ',').take 50) ","
        = String.mk (List.replicate 49 ',') from by decide]⟩

/-! ## The signature -/

theorem md5Sum_length (msg : List Nat) : (md5Sum msg).length = 16 := by
  simp [md5Sum, leBytes]

theorem leBytes_lt (w : Nat) : ∀ b ∈ leBytes w, b < 256 := by
  intro b hb
  simp [leBytes] at hb
  omega

theorem md5Sum_byte (msg : List Nat) : ∀ b ∈ md5Sum msg, b < 256 := by
  intro b hb
  simp only [md5Sum, List.mem_append] at hb
  rcases hb with ((h | h) | h) | h <;> exact leBytes_lt _ b h

theorem hexEncode_length (bs : List Nat) : (bs.flatMap hexByte).length = 2 * bs.length := by
  induction bs with
  | nil => rfl
  | cons b bs ih => simp [List.flatMap_cons, hexByte, ih]; omega

theorem hexDigit_mem : ∀ n, n < 16 → hexDigit n ∈ "0123456789abcdef".data := by decide

theorem hexEncode_lower (bs : List Nat) :
    ∀ c ∈ bs.flatMap hexByte, c ∈ "0123456789abcdef".data := by
  intro c hc
  rcases List.mem_flatMap.1 hc with ⟨b, -, hb⟩
  simp only [hexByte, List.mem_cons, List.mem_singleton, List.not_mem_nil, or_false] at hb
  rcases hb with h | h <;> subst h
  · exact hexDigit_mem _ (Nat.mod_lt _ (by decide))
  · exact hexDigit_mem _ (Nat.mod_lt _ (by decide))

/-- The test suite of RFC 1321, appendix A.5 (the last message takes two blocks). -/
theorem md5Sum_rfc1321_suite :
    fmtHex02 (md5Sum (stringBytes "")) = "d41d8cd98f00b204e9800998ecf8427e" ∧
    fmtHex02 (md5Sum (stringBytes "a")) = "0cc175b9c0f1b6a831c399e269772661" ∧
    fmtHex02 (md5Sum (stringBytes "abc")) = "900150983cd24fb0d6963f7d28e17f72" ∧
    fmtHex02 (md5Sum (stringBytes "message digest")) = "f96b697d7cb7938d525a2f31aaf161d0" ∧
    fmtHex02 (md5Sum (stringBytes "abcdefghijklmnopqrstuvwxyz")) = "c3fcd3d76192e4007dfb496cca67e13b" ∧
    fmtHex02 (md5Sum (stringBytes "12345678901234567890123456789012345678901234567890123456789012345678901234567890")) = "57edf4a22be3c955ac49da2e2107b67a" := by
  decide

/-- C4: `sign(method, url, message)` is the lowercase hexadecimal encoding, two digits
per byte, of the MD5 digest of the bytes of `method ++ url ++ message ++ secret`; it has
32 characters, all among `0`..`9`, `a`..`f`, and it is the same on every request that
holds the same secret. -/
theorem sign_md5_hex (p : UPush) (method url message : String) :
    sign p method url message
      = String.mk ((md5Sum (stringBytes (method ++ url ++ message ++ p.secret))).flatMap
          hexByte) ∧
    (sign p method url message).length = 32 ∧
    (∀ c ∈ (sign p method url message).data, c ∈ "0123456789abcdef".data) ∧
    (∀ q : UPush, q.secret = p.secret →
      sign q method url message = sign p method url message) := by
  have e : sign p method url message
      = String.mk ((md5Sum (stringBytes (method ++ url ++ message ++ p.secret))).flatMap
          hexByte) := by
    simp only [sign, fmtHex02]
    rw [hexEncode_length, md5Sum_length]
    rfl
  refine ⟨e, ?_, ?_, ?_⟩
  · rw [e]
    show ((md5Sum _).flatMap hexByte).length = 32
    rw [hexEncode_length, md5Sum_length]
  · rw [e]; exact hexEncode_lower _
  · intro q hq
    simp only [sign, hq]

theorem sign_md5_hex_witness :
    sign (NewPush PushType_Unicast MsgType_Notification "ak1" "sec1") "POST" pushMessageUrl "\x7b\x7d"
      = "badfdda56c9221c99b38507802480ffc" ∧
    sign (NewPush PushType_Broadcast MsgType_Message "ak2" "sec1") "POST" pushMessageUrl "\x7b\x7d"
      = sign (NewPush PushType_Unicast MsgType_Notification "ak1" "sec1") "POST"
          pushMessageUrl "\x7b\x7d" :=
  ⟨(sign_md5_hex (NewPush PushType_Unicast MsgType_Notification "ak1" "sec1") "POST"
      pushMessageUrl "\x7b\x7d").1.trans (by decide),
    (sign_md5_hex (NewPush PushType_Unicast MsgType_Notification "ak1" "sec1") "POST"
      pushMessageUrl "\x7b\x7d").2.2.2 _ rfl⟩

/-! ## The message assembled by `Push` -/

namespace GoMap

variable {V : Type}

theorem get_eq_none_iff (m : GoMap V) (k : String) : m.get k = none ↔ k ∉ keys m := by
  induction m with
  | nil => simp [get, keys]
  | cons e m ih =>
    obtain ⟨k0, v0⟩ := e
    by_cases h : k0 = k
    · simp [get, keys, h]
    · simp only [get, if_neg h, ih, keys, List.map_cons, List.mem_cons, not_or]
      exact ⟨fun hm => ⟨fun e => h e.symm, hm⟩, fun hm => hm.2⟩

theorem set_of_not_mem (m : GoMap V) (k : String) (v : V) (h : k ∉ keys m) :
    m.set k v = m ++ [(k, v)] := by
  induction m with
  | nil => rfl
  | cons e m ih =>
    obtain ⟨k0, v0⟩ := e
    simp only [keys, List.map_cons, List.mem_cons, not_or] at h
    simp only [set, if_neg (fun e : k0 = k => h.1 e.symm), List.cons_append]
    rw [ih h.2]

theorem keys_set (m : GoMap V) (k : String) (v : V) :
    keys (m.set k v) = if k ∈ keys m then keys m else keys m ++ [k] := by
  induction m with
  | nil => simp [set, keys]
  | cons e m ih =>
    obtain ⟨k0, v0⟩ := e
    by_cases h : k0 = k
    · subst h; simp [set, keys]
    · have h' : ¬ k = k0 := fun e => h e.symm
      simp only [set, if_neg h, keys, List.map_cons, List.mem_cons, h', false_or] at ih ⊢
      rw [ih]
      split <;> simp

theorem WF_set (m : GoMap V) (k : String) (v : V) (h : WF m) : WF (m.set k v) := by
  unfold WF at h ⊢
  rw [keys_set]
  split
  · exact h
  · next hk =>
    rw [List.nodup_append]
    refine ⟨h, List.nodup_singleton k, ?_⟩
    intro a ha hb
    rw [List.mem_singleton] at hb
    exact hk (hb ▸ ha)

theorem get_filter_key (m : GoMap V) (x k : String) :
    get (m.filter fun kv => decide (kv.1 ≠ x)) k = if k = x then none else get m k := by
  induction m with
  | nil => simp [get]
  | cons e m ih =>
    obtain ⟨k0, v0⟩ := e
    by_cases h0 : k0 = x
    · subst h0
      simp only [List.filter, ne_eq, not_true_eq_false, decide_False]
      rw [ih]
      by_cases hk : k = k0
      · simp [hk]
      · have hk' : ¬ k0 = k := fun e => hk e.symm
        simp [hk, get, hk']
    · simp only [List.filter, ne_eq, h0, not_false_eq_true, decide_True, get]
      rw [ih]
      by_cases hk : k0 = k
      · subst hk; simp [h0]
      · simp [hk]

theorem get_perm {l₁ l₂ : GoMap V} (hp : l₁.Perm l₂) (h : WF l₁) (k : String) :
    get l₁ k = get l₂ k := by
  induction hp with
  | nil => rfl
  | cons x _ ih =>
    obtain ⟨k0, v0⟩ := x
    simp only [WF, keys, List.map_cons, List.nodup_cons] at h
    simp only [get]
    rw [ih h.2]
  | swap x y l =>
    obtain ⟨kx, vx⟩ := x
    obtain ⟨ky, vy⟩ := y
    simp only [WF, keys, List.map_cons, List.nodup_cons, List.mem_cons, not_or] at h
    simp only [get]
    by_cases h1 : ky = k
    · have h2 : ¬ kx = k := fun e => h.1.1 (h1.trans e.symm)
      simp [h1, h2]
    · simp [h1]
  | trans hp₁ _ ih₁ ih₂ =>
    have h2 : WF _ := ((hp₁.map Prod.fst).nodup_iff).1 h
    rw [ih₁ h, ih₂ h2]

end GoMap

theorem foldl_policy (c : Prop) [Decidable c] (x : String) (l acc : GoMap Value)
    (h : (GoMap.keys acc ++ GoMap.keys l).Nodup) :
    l.foldl (fun policy kv => if c ∧ kv.1 = x then policy else policy.set kv.1 kv.2) acc
      = acc ++ l.filter (fun kv => decide (¬ (c ∧ kv.1 = x))) := by
  induction l generalizing acc with
  | nil => simp
  | cons e l ih =>
    obtain ⟨k0, v0⟩ := e
    simp only [List.foldl_cons]
    have hk0 : k0 ∉ GoMap.keys acc := by
      intro hm
      rw [List.nodup_append] at h
      exact h.2.2 hm (by simp [GoMap.keys])
    have hnd : (GoMap.keys acc ++ GoMap.keys l).Nodup := by
      simp only [GoMap.keys, List.map_cons] at h ⊢
      exact (List.nodup_middle.1 h).of_cons
    by_cases hc : c ∧ k0 = x
    · rw [if_pos hc, ih acc hnd]
      simp [List.filter, hc]
    · rw [if_neg hc, GoMap.set_of_not_mem _ _ _ hk0, ih]
      · simp [List.filter, hc]
      · simp only [GoMap.keys, List.map_cons, List.map_append, List.map_nil,
          List.append_assoc, List.singleton_append] at h ⊢
        exact h

theorem foldl_payload (l : GoMap String) (acc : GoMap Value)
    (h : (GoMap.keys acc ++ GoMap.keys l).Nodup) :
    l.foldl (fun payload kv => payload.set kv.1 (Value.str kv.2)) acc
      = acc ++ l.map (fun kv => (kv.1, Value.str kv.2)) := by
  induction l generalizing acc with
  | nil => simp
  | cons e l ih =>
    obtain ⟨k0, v0⟩ := e
    simp only [List.foldl_cons]
    have hk0 : k0 ∉ GoMap.keys acc := by
      intro hm
      rw [List.nodup_append] at h
      exact h.2.2 hm (by simp [GoMap.keys])
    rw [GoMap.set_of_not_mem _ _ _ hk0, ih]
    · simp
    · simp only [GoMap.keys, List.map_cons, List.map_append, List.map_nil,
        List.append_assoc, List.singleton_append] at h ⊢
      exact h

theorem foldl_payload_get (l : GoMap String) (acc : GoMap Value) (k : String)
    (h : GoMap.WF l) :
    (l.foldl (fun payload kv => payload.set kv.1 (Value.str kv.2)) acc).get k
      = match l.get k with
        | some v => some (Value.str v)
        | none => acc.get k := by
  induction l generalizing acc with
  | nil => simp [GoMap.get]
  | cons e l ih =>
    obtain ⟨k0, v0⟩ := e
    simp only [GoMap.WF, GoMap.keys, List.map_cons, List.nodup_cons] at h
    simp only [List.foldl_cons]
    rw [ih _ h.2]
    by_cases hk : k0 = k
    · subst hk
      have : GoMap.get l k0 = none := (GoMap.get_eq_none_iff l k0).2 h.1
      simp [GoMap.get, this, GoMap.get_set_self]
    · simp only [GoMap.get, if_neg hk]
      rw [GoMap.get_set_ne _ _ _ _ hk]

theorem NewPush_WF (c mt : Int) (ak sec : String) : (NewPush c mt ak sec).WF := by
  unfold NewPush UPush.WF
  simp only
  split_ifs <;> simp [entries, GoMap.WF, GoMap.keys, GoMap.set]

theorem Extra_eq (p : UPush) (key value : String) :
    Extra p key value = { p with extra := some ((entries p.extra).set key value) } := by
  unfold Extra
  cases h : p.extra <;> simp [h, entries]

theorem Policy_eq (p : UPush) (key : String) (value : Value) :
    Policy p key value = { p with policy := some ((entries p.policy).set key value) } := by
  unfold Policy
  cases h : p.policy <;> simp [h, entries]

theorem APNs_eq (p : UPush) (key : String) (value : Value) :
    APNs p key value = { p with apns := some ((entries p.apns).set key value) } := by
  unfold APNs
  cases h : p.apns <;> simp [h, entries]

theorem Extra_WF (p : UPush) (key value : String) (h : p.WF) : (Extra p key value).WF := by
  obtain ⟨h1, h2, h3, h4, h5⟩ := h
  rw [Extra_eq]
  exact ⟨h1, GoMap.WF_set _ _ _ h2, h3, h4, h5⟩

theorem Policy_WF (p : UPush) (key : String) (value : Value) (h : p.WF) :
    (Policy p key value).WF := by
  obtain ⟨h1, h2, h3, h4, h5⟩ := h
  rw [Policy_eq]
  exact ⟨GoMap.WF_set _ _ _ h1, h2, h3, h4, h5⟩

theorem APNs_WF (p : UPush) (key : String) (value : Value) (h : p.WF) :
    (APNs p key value).WF := by
  obtain ⟨h1, h2, h3, h4, h5⟩ := h
  rw [APNs_eq]
  exact ⟨h1, h2, GoMap.WF_set _ _ _ h3, h4, h5⟩

theorem Push_fst (t : Transport) (p : UPush) (platform now : Int) :
    (Push t p platform now).1 = Push.assemble p platform now := by
  simp only [Push]
  split <;> rfl

theorem assemble_get_policy (p : UPush) (platform now : Int) :
    (Push.assemble p platform now).message.get "policy"
      = some (Value.anyMap (some (Push.policy p platform))) := by
  unfold Push.assemble
  exact GoMap.get_set_self _ _ _

theorem assemble_get_payload (p : UPush) (platform now : Int) :
    (Push.assemble p platform now).message.get "payload"
      = some (Value.anyMap (some (Push.payload p platform))) := by
  unfold Push.assemble
  show GoMap.get (GoMap.set (GoMap.set _ _ _) _ _) _ = _
  rw [GoMap.get_set_ne _ _ _ _ (by decide), GoMap.get_set_self]
  rfl

/-- C5: the `policy` object that `Push` places in the message is, on iOS, the
accumulated policy map without the key `out_biz_no` (every other key keeps its value),
and on Android the accumulated policy map itself, `out_biz_no` included. -/
theorem Push_policy_copy (t : Transport) (p : UPush) (now : Int)
    (h : GoMap.WF (entries p.policy)) :
    (Push t p Platform_iOS now).1.message.get "policy"
      = some (Value.anyMap (some
          ((entries p.policy).filter fun kv => decide (kv.1 ≠ "out_biz_no")))) ∧
    (∀ k, GoMap.get ((entries p.policy).filter fun kv => decide (kv.1 ≠ "out_biz_no")) k
      = if k = "out_biz_no" then none else (entries p.policy).get k) ∧
    (Push t p Platform_Android now).1.message.get "policy"
      = some (Value.anyMap (some (entries p.policy))) := by
  have hnd : (GoMap.keys ([] : GoMap Value) ++ GoMap.keys (entries p.policy)).Nodup := by
    simpa [GoMap.keys] using h
  refine ⟨?_, fun k => GoMap.get_filter_key _ _ _, ?_⟩
  · rw [Push_fst, assemble_get_policy]
    unfold Push.policy
    rw [foldl_policy _ _ _ _ hnd]
    simp [Platform_iOS]
  · rw [Push_fst, assemble_get_policy]
    unfold Push.policy
    rw [foldl_policy _ _ _ _ hnd]
    have : ¬ (Platform_Android = Platform_iOS) := by decide
    simp [this]

/-- C6: the payload that `Push` builds for Android is, for a Notification, exactly
`display_type = "notification"` and `body` = the body map; for a Message it is
`display_type = "message"`, `body` = the body map, and an `extra` entry holding the
extra map exactly when that map is not empty. -/
theorem Push_android_payload (t : Transport) (p : UPush) (now : Int) :
    (Push t p Platform_Android now).1.message.get "payload"
      = some (Value.anyMap (some (Push.payload p Platform_Android))) ∧
    (p.msgtype = MsgType_Notification →
      Push.payload p Platform_Android
        = [("display_type", Value.str "notification"), ("body", Value.anyMap p.body)]) ∧
    (p.msgtype = MsgType_Message →
      Push.payload p Platform_Android
        = [("display_type", Value.str "message"), ("body", Value.anyMap p.body)]
          ++ (if entries p.extra = [] then [] else [("extra", Value.strMap p.extra)]) ∧
      ((Push.payload p Platform_Android).get "extra" = some (Value.strMap p.extra)
        ↔ entries p.extra ≠ []) ∧
      ((Push.payload p Platform_Android).get "extra" = none ↔ entries p.extra = [])) := by
  refine ⟨by rw [Push_fst, assemble_get_payload], fun hn => ?_, fun hm => ?_⟩
  · simp [Push.payload, hn, GoMap.set]
  · have hm' : ¬ p.msgtype = MsgType_Notification := by rw [hm]; decide
    have e : Push.payload p Platform_Android
        = [("display_type", Value.str "message"), ("body", Value.anyMap p.body)]
          ++ (if entries p.extra = [] then [] else [("extra", Value.strMap p.extra)]) := by
      simp only [Push.payload, if_pos, hm', if_false, len]
      by_cases he : entries p.extra = []
      · simp [he, GoMap.set]
      · have : 0 < (entries p.extra).length := List.length_pos.2 he
        simp [he, this, GoMap.set]
    refine ⟨e, ?_, ?_⟩ <;> rw [e] <;> by_cases he : entries p.extra = [] <;>
      simp [he, GoMap.get]

/-- C7, refuted as stated: when the extra map has the key `aps`, the payload built for
iOS holds that extra value under `aps`, not the APNs map. -/
theorem Push_ios_payload_aps_collision :
    (Push.assemble (Extra (NewPush PushType_Broadcast MsgType_Notification "ak1" "sec1")
        "aps" "x") Platform_iOS 0).message.get "payload"
      = some (Value.anyMap (some [("aps", Value.str "x")])) ∧
    ¬ (Push.payload (Extra (NewPush PushType_Broadcast MsgType_Notification "ak1" "sec1")
        "aps" "x") Platform_iOS).get "aps"
      = some (Value.anyMap
          (Extra (NewPush PushType_Broadcast MsgType_Notification "ak1" "sec1")
            "aps" "x").apns) := by
  refine ⟨rfl, ?_⟩
  intro h
  have e : (Push.payload (Extra (NewPush PushType_Broadcast MsgType_Notification "ak1" "sec1")
        "aps" "x") Platform_iOS).get "aps" = some (Value.str "x") := rfl
  rw [e] at h
  cases h

/-- C7, amended: the payload that `Push` builds for iOS has, for every key `k` of the
extra map, the entry `k` with the extra value; it has `aps` = the APNs map when the
extra map has no key `aps`; and it has no other entry. -/
theorem Push_ios_payload (t : Transport) (p : UPush) (now : Int)
    (h : GoMap.WF (entries p.extra)) :
    (Push t p Platform_iOS now).1.message.get "payload"
      = some (Value.anyMap (some (Push.payload p Platform_iOS))) ∧
    (∀ k, (Push.payload p Platform_iOS).get k
      = match (entries p.extra).get k with
        | some v => some (Value.str v)
        | none => if k = "aps" then some (Value.anyMap p.apns) else none) ∧
    ("aps" ∉ GoMap.keys (entries p.extra) →
      Push.payload p Platform_iOS
        = ("aps", Value.anyMap p.apns)
          :: (entries p.extra).map fun kv => (kv.1, Value.str kv.2)) := by
  have hi : ¬ Platform_iOS = Platform_Android := by decide
  refine ⟨by rw [Push_fst, assemble_get_payload], fun k => ?_, fun hk => ?_⟩
  · simp only [Push.payload, if_neg hi]
    rw [foldl_payload_get _ _ _ h]
    by_cases hk : k = "aps"
    · subst hk; simp [GoMap.set, GoMap.get]
    · have hk' : ¬ "aps" = k := fun e => hk e.symm
      simp [GoMap.set, GoMap.get, hk, hk']
  · simp only [Push.payload, if_neg hi]
    rw [foldl_payload]
    · rfl
    · simp only [GoMap.set, GoMap.keys, List.map_cons, List.map_nil, List.singleton_append,
        List.nodup_cons]
      exact ⟨hk, h⟩

theorem Push_policy_copy_witness :
    GoMap.WF (entries (Policy (Policy (NewPush PushType_Unicast MsgType_Notification "ak1" "sec1")
      "expire_time" (Value.str "2030-01-01 00:00:00")) "out_biz_no" (Value.str "b1")).policy) ∧
    (Push ⟨fun _ => Except.ok "", fun _ _ _ => Except.ok ""⟩
      (Policy (Policy (NewPush PushType_Unicast MsgType_Notification "ak1" "sec1")
        "expire_time" (Value.str "2030-01-01 00:00:00")) "out_biz_no" (Value.str "b1"))
      Platform_iOS 0).1.message.get "policy"
      = some (Value.anyMap (some [("expire_time", Value.str "2030-01-01 00:00:00")])) ∧
    (Push ⟨fun _ => Except.ok "", fun _ _ _ => Except.ok ""⟩
      (Policy (Policy (NewPush PushType_Unicast MsgType_Notification "ak1" "sec1")
        "expire_time" (Value.str "2030-01-01 00:00:00")) "out_biz_no" (Value.str "b1"))
      Platform_Android 0).1.message.get "policy"
      = some (Value.anyMap (some [("expire_time", Value.str "2030-01-01 00:00:00"),
          ("out_biz_no", Value.str "b1")])) :=
  ⟨by decide,
    (Push_policy_copy ⟨fun _ => Except.ok "", fun _ _ _ => Except.ok ""⟩
      (Policy (Policy (NewPush PushType_Unicast MsgType_Notification "ak1" "sec1")
        "expire_time" (Value.str "2030-01-01 00:00:00")) "out_biz_no" (Value.str "b1"))
      0 (by decide)).1.trans rfl,
    (Push_policy_copy ⟨fun _ => Except.ok "", fun _ _ _ => Except.ok ""⟩
      (Policy (Policy (NewPush PushType_Unicast MsgType_Notification "ak1" "sec1")
        "expire_time" (Value.str "2030-01-01 00:00:00")) "out_biz_no" (Value.str "b1"))
      0 (by decide)).2.2.trans rfl⟩

theorem Push_android_payload_witness :
    Push.payload (Extra (Body (NewPush PushType_Unicast MsgType_Notification "ak1" "sec1")
        "ticker" (Value.str "hi")) "k" "v") Platform_Android
      = [("display_type", Value.str "notification"),
          ("body", Value.anyMap (some [("ticker", Value.str "hi")]))] ∧
    Push.payload (Extra (Body (NewPush PushType_Unicast MsgType_Message "ak1" "sec1")
        "custom" (Value.str "hi")) "k" "v") Platform_Android
      = [("display_type", Value.str "message"),
          ("body", Value.anyMap (some [("custom", Value.str "hi")])),
          ("extra", Value.strMap (some [("k", "v")]))] ∧
    Push.payload (NewPush PushType_Unicast MsgType_Message "ak1" "sec1") Platform_Android
      = [("display_type", Value.str "message"), ("body", Value.anyMap none)] :=
  ⟨((Push_android_payload ⟨fun _ => Except.ok "", fun _ _ _ => Except.ok ""⟩
      (Extra (Body (NewPush PushType_Unicast MsgType_Notification "ak1" "sec1")
        "ticker" (Value.str "hi")) "k" "v") 0).2.1 rfl).trans rfl,
    ((Push_android_payload ⟨fun _ => Except.ok "", fun _ _ _ => Except.ok ""⟩
      (Extra (Body (NewPush PushType_Unicast MsgType_Message "ak1" "sec1")
        "custom" (Value.str "hi")) "k" "v") 0).2.2 rfl).1.trans rfl,
    ((Push_android_payload ⟨fun _ => Except.ok "", fun _ _ _ => Except.ok ""⟩
      (NewPush PushType_Unicast MsgType_Message "ak1" "sec1") 0).2.2 rfl).1.trans rfl⟩

theorem Push_ios_payload_witness :
    GoMap.WF (entries (Extra (APNs (NewPush PushType_Unicast MsgType_Notification "ak1" "sec1")
      "alert" (Value.str "hi")) "k" "v").extra) ∧
    Push.payload (Extra (APNs (NewPush PushType_Unicast MsgType_Notification "ak1" "sec1")
        "alert" (Value.str "hi")) "k" "v") Platform_iOS
      = [("aps", Value.anyMap (some [("alert", Value.str "hi")])), ("k", Value.str "v")] :=
  ⟨by decide,
    ((Push_ios_payload ⟨fun _ => Except.ok "", fun _ _ _ => Except.ok ""⟩
      (Extra (APNs (NewPush PushType_Unicast MsgType_Notification "ak1" "sec1")
        "alert" (Value.str "hi")) "k" "v") 0 (by decide)).2.2 (by decide)).trans rfl⟩

/-! ## The setter `Body` and the constructor -/

/-- C8: on a request of message kind Message, `Body(key, value)` with a key other than
`custom` returns the request unchanged: the body map and every other field. -/
theorem Body_message_other_key (p : UPush) (key : String) (value : Value)
    (hm : p.msgtype = MsgType_Message) (hk : key ≠ "custom") :
    Body p key value = p := by
  unfold Body
  rw [if_pos ⟨hm, hk⟩]

theorem Body_message_other_key_witness :
    Body (NewPush PushType_Unicast MsgType_Message "ak1" "sec1") "ticker" (Value.str "hi")
      = NewPush PushType_Unicast MsgType_Message "ak1" "sec1" ∧
    (Body (NewPush PushType_Unicast MsgType_Message "ak1" "sec1") "ticker"
      (Value.str "hi")).body = none :=
  ⟨Body_message_other_key _ "ticker" (Value.str "hi") rfl (by decide),
    by rw [Body_message_other_key _ "ticker" (Value.str "hi") rfl (by decide)]; rfl⟩

/-- C9, at the failing input: `NewPush` stores the message kind 2, which is neither
Notification nor Message. On that request `Body("ticker", "hi")` stores the value,
although the kind is not Notification and the key is not `custom`, and `Push` then builds
the payload of a Message around that body; on a request of kind Message the same call
stores nothing. -/
theorem Body_stores_for_other_kind :
    (NewPush PushType_Unicast 2 "ak1" "sec1").msgtype = 2 ∧
    (Body (NewPush PushType_Unicast 2 "ak1" "sec1") "ticker" (Value.str "hi")).body
      = some [("ticker", Value.str "hi")] ∧
    ¬ ((NewPush PushType_Unicast 2 "ak1" "sec1").msgtype = MsgType_Notification
      ∨ "ticker" = "custom") ∧
    Push.payload (Body (NewPush PushType_Unicast 2 "ak1" "sec1") "ticker" (Value.str "hi"))
        Platform_Android
      = [("display_type", Value.str "message"),
          ("body", Value.anyMap (some [("ticker", Value.str "hi")]))] ∧
    Body (NewPush PushType_Unicast MsgType_Message "ak1" "sec1") "ticker" (Value.str "hi")
      = NewPush PushType_Unicast MsgType_Message "ak1" "sec1" :=
  ⟨rfl, rfl, by decide, rfl, rfl⟩

theorem NewPush_fields (c mt : Int) (ak sec : String) :
    (NewPush c mt ak sec).msgtype = mt ∧ (NewPush c mt ak sec).appkey = ak ∧
    (NewPush c mt ak sec).secret = sec ∧ (NewPush c mt ak sec).policy = none ∧
    (NewPush c mt ak sec).extra = none ∧ (NewPush c mt ak sec).apns = none ∧
    (NewPush c mt ak sec).body = none := by
  unfold NewPush
  simp only
  split_ifs <;> simp

/-- The rule of `Body` on the two defined message kinds, for any request: the value is
stored under the key when the kind is Notification or the key is `custom`, and the call
returns the request unchanged otherwise. -/
theorem Body_defined_kinds (p : UPush) (key : String) (value : Value)
    (h : p.msgtype = MsgType_Notification ∨ p.msgtype = MsgType_Message) :
    ((p.msgtype = MsgType_Notification ∨ key = "custom") →
      Body p key value = { p with body := some ((entries p.body).set key value) } ∧
      (entries (Body p key value).body).get key = some value) ∧
    (¬ (p.msgtype = MsgType_Notification ∨ key = "custom") → Body p key value = p) := by
  constructor
  · intro hs
    have hg : ¬ (p.msgtype = MsgType_Message ∧ key ≠ "custom") := by
      rintro ⟨hm, hk⟩
      rcases hs with hn | hc
      · rw [hn] at hm; exact absurd hm (by decide)
      · exact hk hc
    have e : Body p key value
        = { p with body := some ((entries p.body).set key value) } := by
      unfold Body
      rw [if_neg hg]
      cases hb : p.body <;> simp [hb, entries]
    refine ⟨e, ?_⟩
    rw [e]
    exact GoMap.get_set_self _ _ _
  · intro hs
    have hn : ¬ p.msgtype = MsgType_Notification := fun hn => hs (Or.inl hn)
    have hk : key ≠ "custom" := fun hk => hs (Or.inr hk)
    have hm : p.msgtype = MsgType_Message := h.resolve_left hn
    unfold Body
    rw [if_pos ⟨hm, hk⟩]

/-- C10: the message of the request that `NewPush` returns has exactly the entries
`appkey` and `type`; for the six defined cast types `type` is the wire name of the
cast type, which is stored unchanged, and for every other integer the stored cast type
is Broadcast and `type` is `broadcast`. -/
theorem NewPush_message (c mt : Int) (ak sec : String) :
    (c = PushType_Unicast →
      (NewPush c mt ak sec).message = [("appkey", Value.str ak), ("type", Value.str "unicast")]
      ∧ (NewPush c mt ak sec).pushtype = PushType_Unicast) ∧
    (c = PushType_Listcast →
      (NewPush c mt ak sec).message = [("appkey", Value.str ak), ("type", Value.str "listcast")]
      ∧ (NewPush c mt ak sec).pushtype = PushType_Listcast) ∧
    (c = PushType_Filecast →
      (NewPush c mt ak sec).message = [("appkey", Value.str ak), ("type", Value.str "filecast")]
      ∧ (NewPush c mt ak sec).pushtype = PushType_Filecast) ∧
    (c = PushType_Broadcast →
      (NewPush c mt ak sec).message
        = [("appkey", Value.str ak), ("type", Value.str "broadcast")]
      ∧ (NewPush c mt ak sec).pushtype = PushType_Broadcast) ∧
    (c = PushType_Groupcast →
      (NewPush c mt ak sec).message
        = [("appkey", Value.str ak), ("type", Value.str "groupcast")]
      ∧ (NewPush c mt ak sec).pushtype = PushType_Groupcast) ∧
    (c = PushType_Customizedcast →
      (NewPush c mt ak sec).message
        = [("appkey", Value.str ak), ("type", Value.str "customizedcast")]
      ∧ (NewPush c mt ak sec).pushtype = PushType_Customizedcast) ∧
    ((c < 0 ∨ 5 < c) →
      (NewPush c mt ak sec).message
        = [("appkey", Value.str ak), ("type", Value.str "broadcast")]
      ∧ (NewPush c mt ak sec).pushtype = PushType_Broadcast) := by
  refine ⟨?_, ?_, ?_, ?_, ?_, ?_, ?_⟩
  · rintro rfl; exact ⟨rfl, rfl⟩
  · rintro rfl; exact ⟨rfl, rfl⟩
  · rintro rfl; exact ⟨rfl, rfl⟩
  · rintro rfl; exact ⟨rfl, rfl⟩
  · rintro rfl; exact ⟨rfl, rfl⟩
  · rintro rfl; exact ⟨rfl, rfl⟩
  · intro h
    have h0 : ¬ c = PushType_Unicast := by unfold PushType_Unicast; omega
    have h1 : ¬ c = PushType_Listcast := by unfold PushType_Listcast; omega
    have h2 : ¬ c = PushType_Filecast := by unfold PushType_Filecast; omega
    have h3 : ¬ c = PushType_Broadcast := by unfold PushType_Broadcast; omega
    have h4 : ¬ c = PushType_Groupcast := by unfold PushType_Groupcast; omega
    have h5 : ¬ c = PushType_Customizedcast := by unfold PushType_Customizedcast; omega
    unfold NewPush
    simp only [h0, h1, h2, h3, h4, h5, if_false]
    refine ⟨?_, ?_⟩ <;> first | rfl | trivial

theorem NewPush_message_witness :
    (NewPush 5 MsgType_Notification "ak1" "sec1").message
      = [("appkey", Value.str "ak1"), ("type", Value.str "customizedcast")] ∧
    (NewPush 6 MsgType_Notification "ak1" "sec1").message
      = [("appkey", Value.str "ak1"), ("type", Value.str "broadcast")] ∧
    (NewPush 6 MsgType_Notification "ak1" "sec1").pushtype = 3 ∧
    (NewPush (-1) MsgType_Notification "ak1" "sec1").pushtype = PushType_Broadcast :=
  ⟨((NewPush_message 5 MsgType_Notification "ak1" "sec1").2.2.2.2.2.1 rfl).1,
    ((NewPush_message 6 MsgType_Notification "ak1" "sec1").2.2.2.2.2.2 (by decide)).1,
    ((NewPush_message 6 MsgType_Notification "ak1" "sec1").2.2.2.2.2.2 (by decide)).2,
    ((NewPush_message (-1) MsgType_Notification "ak1" "sec1").2.2.2.2.2.2 (by decide)).2⟩

/-! ## Setters that do not apply, and repeated calls -/

/-- C11: a setter called on a request of a cast type it does not apply to returns the
request unchanged: `Token` when the cast type is neither Unicast nor Listcast, `Alias`
when it is not Customizedcast, `FileId` when it is not Filecast; and on a Filecast
request `FileId(id)` sets `file_id` to `id` and changes nothing else. -/
theorem setters_not_applicable (p : UPush) :
    (p.pushtype ≠ PushType_Unicast → p.pushtype ≠ PushType_Listcast →
      ∀ t, Token p t = p) ∧
    (p.pushtype ≠ PushType_Customizedcast → ∀ ty a, Alias p ty a = p) ∧
    (p.pushtype ≠ PushType_Filecast → ∀ id, FileId p id = p) ∧
    (p.pushtype = PushType_Filecast → ∀ id,
      FileId p id = { p with message := p.message.set "file_id" (Value.str id) } ∧
      (FileId p id).message.get "file_id" = some (Value.str id) ∧
      ∀ k, k ≠ "file_id" → (FileId p id).message.get k = p.message.get k) := by
  refine ⟨fun h0 h1 t => ?_, fun h ty a => ?_, fun h id => ?_, fun h id => ?_⟩
  · unfold Token
    rw [if_pos ⟨h0, h1⟩]
  · unfold Alias
    rw [if_pos h]
  · unfold FileId
    rw [if_pos h]
  · have e : FileId p id
        = { p with message := p.message.set "file_id" (Value.str id) } := by
      unfold FileId
      rw [if_neg (fun hn => hn h)]
    refine ⟨e, ?_, fun k hk => ?_⟩
    · rw [e]; exact GoMap.get_set_self _ _ _
    · rw [e]; exact GoMap.get_set_ne _ _ _ _ (fun e' => hk e'.symm)

theorem setters_not_applicable_witness :
    Token (NewPush PushType_Broadcast MsgType_Notification "ak1" "sec1") "t1,t2"
      = NewPush PushType_Broadcast MsgType_Notification "ak1" "sec1" ∧
    Alias (NewPush PushType_Unicast MsgType_Notification "ak1" "sec1") "uid" "a,b"
      = NewPush PushType_Unicast MsgType_Notification "ak1" "sec1" ∧
    FileId (NewPush PushType_Listcast MsgType_Notification "ak1" "sec1") "f1"
      = NewPush PushType_Listcast MsgType_Notification "ak1" "sec1" ∧
    (FileId (NewPush PushType_Filecast MsgType_Notification "ak1" "sec1") "f1").message
      = [("appkey", Value.str "ak1"), ("type", Value.str "filecast"),
          ("file_id", Value.str "f1")] :=
  ⟨(setters_not_applicable (NewPush PushType_Broadcast MsgType_Notification "ak1" "sec1")).1
      (by decide) (by decide) "t1,t2",
    (setters_not_applicable (NewPush PushType_Unicast MsgType_Notification "ak1" "sec1")).2.1
      (by decide) "uid" "a,b",
    (setters_not_applicable (NewPush PushType_Listcast MsgType_Notification "ak1" "sec1")).2.2.1
      (by decide) "f1",
    by rw [((setters_not_applicable
        (NewPush PushType_Filecast MsgType_Notification "ak1" "sec1")).2.2.2 rfl "f1").1]
       rfl⟩

namespace GoMap

variable {V : Type}

theorem set_set (m : GoMap V) (k : String) (v w : V) : (m.set k v).set k w = m.set k w := by
  induction m with
  | nil => simp [set]
  | cons e m ih =>
    obtain ⟨k0, v0⟩ := e
    by_cases h : k0 = k
    · simp [set, h]
    · simp [set, h, ih]

end GoMap

theorem Token_unicast_eq (p : UPush) (t : String) (h : p.pushtype = PushType_Unicast) :
    Token p t = { p with
      message := p.message.set "device_tokens"
        (Value.str ((strings_Split t ',').headD "")) } := by
  have hn : (strings_Split t ',').length ≠ 0 :=
    fun e => strings_Split_ne_nil t ',' (List.length_eq_zero.1 e)
  unfold Token
  simp only [h]
  rw [if_neg (by decide), if_neg hn, if_pos trivial]

theorem Token_listcast_le (p : UPush) (t : String) (h : p.pushtype = PushType_Listcast)
    (hle : (strings_Split t ',').length ≤ 500) :
    Token p t = { p with message := p.message.set "devicd_tokens" (Value.str t) } := by
  have hn : (strings_Split t ',').length ≠ 0 :=
    fun e => strings_Split_ne_nil t ',' (List.length_eq_zero.1 e)
  unfold Token
  simp only [h, gt_iff_lt]
  rw [if_neg (by decide), if_neg hn, if_neg (by decide), if_pos trivial, if_neg (by omega)]

theorem Token_listcast_gt (p : UPush) (t : String) (h : p.pushtype = PushType_Listcast)
    (hgt : 500 < (strings_Split t ',').length) :
    Token p t = { p with
      message := p.message.set "device_tokens"
        (Value.str (strings_Join ((strings_Split t ',').take 500) ",")) } := by
  have hn : (strings_Split t ',').length ≠ 0 :=
    fun e => strings_Split_ne_nil t ',' (List.length_eq_zero.1 e)
  unfold Token
  simp only [h, gt_iff_lt]
  rw [if_neg (by decide), if_neg hn, if_neg (by decide), if_pos trivial, if_pos hgt]

/-- The part of "later calls overwrite earlier ones" that the code has: a second `Token`
call replaces the first on a Unicast request, and on a Listcast request when both token
lists are on the same side of the 500 limit. -/
theorem Token_Token_same_side (p : UPush) (a b : String)
    (h : p.pushtype = PushType_Unicast ∨
      (p.pushtype = PushType_Listcast ∧
        ((strings_Split a ',').length ≤ 500 ↔ (strings_Split b ',').length ≤ 500))) :
    Token (Token p a) b = Token p b := by
  rcases h with h | ⟨h, hab⟩
  · rw [Token_unicast_eq p a h, Token_unicast_eq p b h, Token_unicast_eq _ b (by exact h)]
    simp only [GoMap.set_set]
  · by_cases ha : (strings_Split a ',').length ≤ 500
    · have hb := hab.1 ha
      rw [Token_listcast_le p a h ha, Token_listcast_le p b h hb, Token_listcast_le _ b (by exact h) hb]
      simp only [GoMap.set_set]
    · have hb : ¬ (strings_Split b ',').length ≤ 500 := fun hb => ha (hab.2 hb)
      rw [Token_listcast_gt p a h (by omega), Token_listcast_gt p b h (by omega),
        Token_listcast_gt _ b (by exact h) (by omega)]
      simp only [GoMap.set_set]

/-- C12, at the failing input: on a Listcast request a `Token` call with 501 entries
followed by a `Token` call with one entry leaves the 500 tokens of the first call under
`device_tokens`, next to the `devicd_tokens` of the second, while the second call alone
leaves no `device_tokens` entry. -/
theorem Token_Token_listcast_keeps_first :
    (Token (Token (NewPush PushType_Listcast MsgType_Notification "ak1" "sec1")
        (String.mk (List.replicate 500 ','))) "t1").message
      = [("appkey", Value.str "ak1"), ("type", Value.str "listcast"),
          ("device_tokens", Value.str (String.mk (List.replicate 499 ','))),
          ("devicd_tokens", Value.str "t1")] ∧
    (Token (NewPush PushType_Listcast MsgType_Notification "ak1" "sec1") "t1").message
      = [("appkey", Value.str "ak1"), ("type", Value.str "listcast"),
          ("devicd_tokens", Value.str "t1")] ∧
    (Token (NewPush PushType_Listcast MsgType_Notification "ak1" "sec1") "t1").message.get
      "device_tokens" = none := by
  refine ⟨?_, ?_, ?_⟩
  · rw [Token_listcast_gt _ (String.mk (List.replicate 500 ',')) rfl (by decide),
      Token_listcast_le _ "t1" rfl (by decide)]
    rw [show strings_Join ((strings_Split (String.mk (List.replicate 500 ',')) ',').take 500) ","
      = String.mk (List.replicate 499 ',') from by decide]
    rfl
  · rw [Token_listcast_le _ "t1" rfl (by decide)]; rfl
  · rw [Token_listcast_le _ "t1" rfl (by decide)]; rfl

/-! ## Reachable requests -/

theorem Body_eq (p : UPush) (key : String) (value : Value)
    (h : ¬ (p.msgtype = MsgType_Message ∧ key ≠ "custom")) :
    Body p key value = { p with body := some ((entries p.body).set key value) } := by
  unfold Body
  rw [if_neg h]
  cases hb : p.body <;> simp [hb, entries]

theorem Op.apply_frame (p : UPush) (op : Op) :
    (Op.apply p op).pushtype = p.pushtype ∧ (Op.apply p op).appkey = p.appkey ∧
    (Op.apply p op).secret = p.secret ∧
    (Op.apply p op).message.get "appkey" = p.message.get "appkey" ∧
    (Op.apply p op).message.get "type" = p.message.get "type" := by
  cases op with
  | token t =>
    simp only [Op.apply, Token]
    split_ifs <;> simp [GoMap.get_set_ne]
  | aliasOp typ aliasv =>
    simp only [Op.apply, Alias]
    split_ifs <;> simp [GoMap.get_set_ne]
  | fileId id =>
    simp only [Op.apply, FileId]
    split_ifs <;> simp [GoMap.get_set_ne]
  | filter f => simp [Op.apply, Filter]
  | extra key value => simp [Op.apply, Extra_eq]
  | body key value =>
    simp only [Op.apply]
    by_cases h : p.msgtype = MsgType_Message ∧ key ≠ "custom"
    · simp [Body, h]
    · simp [Body_eq p key value h]
  | apns key value => simp [Op.apply, APNs_eq]
  | policy key value => simp [Op.apply, Policy_eq]
  | mode production =>
    simp only [Op.apply, Mode]
    split_ifs <;> simp [GoMap.get_set_ne]
  | description desc => simp [Op.apply, Description, GoMap.get_set_ne]
  | thirdpartyId id => simp [Op.apply, ThirdpartyId, GoMap.get_set_ne]
  | push platform now => simp [Op.apply, Push.assemble, GoMap.get_set_ne]

theorem run_frame (p : UPush) (ops : List Op) :
    (run p ops).pushtype = p.pushtype ∧ (run p ops).appkey = p.appkey ∧
    (run p ops).secret = p.secret ∧
    (run p ops).message.get "appkey" = p.message.get "appkey" ∧
    (run p ops).message.get "type" = p.message.get "type" := by
  induction ops generalizing p with
  | nil => simp [run]
  | cons op ops ih =>
    obtain ⟨h1, h2, h3, h4, h5⟩ := Op.apply_frame p op
    obtain ⟨g1, g2, g3, g4, g5⟩ := ih (Op.apply p op)
    simp only [run, List.foldl_cons] at g1 g2 g3 g4 g5 ⊢
    exact ⟨g1.trans h1, g2.trans h2, g3.trans h3, g4.trans h4, g5.trans h5⟩

theorem NewPush_invariant (c mt : Int) (ak sec : String) :
    (NewPush c mt ak sec).message.get "appkey" = some (Value.str ak) ∧
    (NewPush c mt ak sec).pushtype ∈ [PushType_Unicast, PushType_Listcast, PushType_Filecast,
      PushType_Broadcast, PushType_Groupcast, PushType_Customizedcast] ∧
    (NewPush c mt ak sec).message.get "type"
      = (wireName (NewPush c mt ak sec).pushtype).map Value.str := by
  unfold NewPush
  simp only
  split_ifs with h0 h1 h2 h3 h4 h5
  · subst h0; exact ⟨rfl, by simp, rfl⟩
  · subst h1; exact ⟨rfl, by simp, rfl⟩
  · subst h2; exact ⟨rfl, by simp, rfl⟩
  · subst h3; exact ⟨rfl, by simp, rfl⟩
  · subst h4; exact ⟨rfl, by simp, rfl⟩
  · subst h5; exact ⟨rfl, by simp, rfl⟩
  · exact ⟨rfl, by simp, rfl⟩

/-- C15: after `NewPush` and any sequence of setter calls and `Push` message assemblies,
the message has `appkey` = the appkey given at construction, the stored cast type is one
of the six defined values, and the message has `type` = the wire name of the stored cast
type. -/
theorem reachable_invariant (c mt : Int) (ak sec : String) (ops : List Op) :
    (run (NewPush c mt ak sec) ops).message.get "appkey" = some (Value.str ak) ∧
    (run (NewPush c mt ak sec) ops).pushtype ∈ [PushType_Unicast, PushType_Listcast,
      PushType_Filecast, PushType_Broadcast, PushType_Groupcast, PushType_Customizedcast] ∧
    (run (NewPush c mt ak sec) ops).message.get "type"
      = (wireName (run (NewPush c mt ak sec) ops).pushtype).map Value.str := by
  obtain ⟨h1, -, -, h4, h5⟩ := run_frame (NewPush c mt ak sec) ops
  obtain ⟨g1, g2, g3⟩ := NewPush_invariant c mt ak sec
  rw [h1, h4, h5]
  exact ⟨g1, g2, g3⟩

/-! ## The scenario of the specification -/

/-- C13, refuted as stated: for the request `NewPush(Unicast, Notification, "ak1",
"sec1")` with `Token("t1,t2")` and `Body("ticker", "hi")`, the payload that `Push`
assembles for iOS is the `aps` entry alone, with no `display_type` and no `body`. -/
theorem scenario_ios_payload :
    Push.payload (Body (Token (NewPush PushType_Unicast MsgType_Notification "ak1" "sec1")
        "t1,t2") "ticker" (Value.str "hi")) Platform_iOS
      = [("aps", Value.anyMap none)] ∧
    (Push.payload (Body (Token (NewPush PushType_Unicast MsgType_Notification "ak1" "sec1")
        "t1,t2") "ticker" (Value.str "hi")) Platform_iOS).get "display_type" = none ∧
    (Push.payload (Body (Token (NewPush PushType_Unicast MsgType_Notification "ak1" "sec1")
        "t1,t2") "ticker" (Value.str "hi")) Platform_iOS).get "body" = none :=
  ⟨rfl, rfl, rfl⟩

/-- C13, amended: for that request the message that `Push` assembles has `device_tokens`
= `t1` and an empty `policy` object on both platforms; on Android its payload is
`display_type = "notification"` with `body = {"ticker": "hi"}`, and on iOS its payload is
the `aps` entry alone, holding the unset APNs map. -/
theorem scenario_message (t : Transport) (now : Int) :
    (Push t (Body (Token (NewPush PushType_Unicast MsgType_Notification "ak1" "sec1")
        "t1,t2") "ticker" (Value.str "hi")) Platform_Android now).1.message
      = [("appkey", Value.str "ak1"), ("type", Value.str "unicast"),
          ("device_tokens", Value.str "t1"), ("timestamp", Value.str (fmtInt now)),
          ("payload", Value.anyMap (some [("display_type", Value.str "notification"),
            ("body", Value.anyMap (some [("ticker", Value.str "hi")]))])),
          ("policy", Value.anyMap (some []))] ∧
    (Push t (Body (Token (NewPush PushType_Unicast MsgType_Notification "ak1" "sec1")
        "t1,t2") "ticker" (Value.str "hi")) Platform_iOS now).1.message
      = [("appkey", Value.str "ak1"), ("type", Value.str "unicast"),
          ("device_tokens", Value.str "t1"), ("timestamp", Value.str (fmtInt now)),
          ("payload", Value.anyMap (some [("aps", Value.anyMap none)])),
          ("policy", Value.anyMap (some []))] := by
  constructor
  · rw [Push_fst]; rfl
  · rw [Push_fst]; rfl

/-! ## The operations `Status`, `Cancel` and `Upload` -/

theorem fmtInt_eq_toString (n : Int) : fmtInt n = toString n := by
  cases n <;> rfl

theorem post_congr (t : Transport) (p q : UPush) (url key value : String) (now : Int)
    (ha : q.appkey = p.appkey) (hs : q.secret = p.secret) :
    post t q url key value now = post t p url key value now := by
  unfold post post.msg sign
  rw [ha, hs]

/-- C14: on a request built by `NewPush` and any sequence of builder calls, the message
that `Status`, `Cancel` and `Upload` serialize has exactly the entries `appkey` = the
appkey of the construction, the key of the operation (`task_id`, `content`) = the
argument, and `timestamp` = the decimal string of the clock value; the operations give
what they give on the request as constructed, whatever was configured afterwards. -/
theorem post_message (t : Transport) (c mt : Int) (ak sec : String) (ops : List Op)
    (v : String) (now : Int) :
    post.msg (run (NewPush c mt ak sec) ops) "task_id" v now
      = [("appkey", ak), ("task_id", v), ("timestamp", toString now)] ∧
    post.msg (run (NewPush c mt ak sec) ops) "content" v now
      = [("appkey", ak), ("content", v), ("timestamp", toString now)] ∧
    (∀ url key, post t (run (NewPush c mt ak sec) ops) url key v now
      = match t.jsonMarshal
          (Value.strMap (some (post.msg (run (NewPush c mt ak sec) ops) key v now))) with
        | Except.error err => Except.error err
        | Except.ok body =>
          t.httpPost (url ++ "?sign=" ++ sign (NewPush c mt ak sec) "POST" url body)
            "application/json;charset=utf-8" body) ∧
    Status t (run (NewPush c mt ak sec) ops) v now
      = post t (NewPush c mt ak sec) pushTaskStatusUrl "task_id" v now ∧
    Cancel t (run (NewPush c mt ak sec) ops) v now
      = post t (NewPush c mt ak sec) pushTaskCacelUrl "task_id" v now ∧
    Upload t (run (NewPush c mt ak sec) ops) v now
      = post t (NewPush c mt ak sec) pushFileUploadUrl "content" v now := by
  obtain ⟨-, ha, hs, -, -⟩ := run_frame (NewPush c mt ak sec) ops
  obtain ⟨-, hak, hsec, -⟩ := NewPush_fields c mt ak sec
  refine ⟨?_, ?_, fun url key => ?_, ?_, ?_, ?_⟩
  · simp [post.msg, ha, hak, GoMap.set, fmtInt_eq_toString]
  · simp [post.msg, ha, hak, GoMap.set, fmtInt_eq_toString]
  · have hsign : ∀ body, sign (run (NewPush c mt ak sec) ops) "POST" url body
        = sign (NewPush c mt ak sec) "POST" url body := by
      intro body; simp only [sign, hs]
    simp only [post, hsign]
  · exact post_congr t _ _ _ _ _ _ ha hs
  · exact post_congr t _ _ _ _ _ _ ha hs
  · exact post_congr t _ _ _ _ _ _ ha hs

/-! ## Divergences of the code -/

/-- C16, at the failing input: on a Listcast request `Token("t1,t2")` writes the token
list under `devicd_tokens` and leaves no `device_tokens` entry, while a list of 501
entries is written under `device_tokens`, the key that a Unicast request uses. -/
theorem Token_listcast_key_differs :
    (Token (NewPush PushType_Listcast MsgType_Notification "ak1" "sec1") "t1,t2").message
      = [("appkey", Value.str "ak1"), ("type", Value.str "listcast"),
          ("devicd_tokens", Value.str "t1,t2")] ∧
    (Token (NewPush PushType_Listcast MsgType_Notification "ak1" "sec1")
      "t1,t2").message.get "device_tokens" = none ∧
    (Token (NewPush PushType_Listcast MsgType_Notification "ak1" "sec1")
        (String.mk (List.replicate 500 ','))).message
      = [("appkey", Value.str "ak1"), ("type", Value.str "listcast"),
          ("device_tokens", Value.str (String.mk (List.replicate 499 ',')))] ∧
    (Token (NewPush PushType_Unicast MsgType_Notification "ak1" "sec1") "t1,t2").message
      = [("appkey", Value.str "ak1"), ("type", Value.str "unicast"),
          ("device_tokens", Value.str "t1")] := by
  refine ⟨?_, ?_, ?_, ?_⟩
  · rw [Token_listcast_le _ "t1,t2" rfl (by decide)]; rfl
  · rw [Token_listcast_le _ "t1,t2" rfl (by decide)]; rfl
  · rw [Token_listcast_gt _ (String.mk (List.replicate 500 ',')) rfl (by decide)]
    rw [show strings_Join ((strings_Split (String.mk (List.replicate 500 ',')) ',').take 500) ","
      = String.mk (List.replicate 499 ',') from by decide]
    rfl
  · rw [Token_unicast_eq _ "t1,t2" rfl]; rfl

/-- C17, at the failing constant: the cancel endpoint starts with a space, so the URL
that `Cancel` signs and posts to does not begin with `http://`; the send, status and
upload endpoints begin with `http://msg.umeng.com/` and hold no space. -/
theorem cancel_url_leading_space (p : UPush) (body : String) :
    pushTaskCacelUrl.data.head? = some ' ' ∧
    ¬ "http://".data <+: (pushTaskCacelUrl ++ "?sign=" ++ sign p "POST" pushTaskCacelUrl
        body).data ∧
    ("http://msg.umeng.com/".data <+: pushMessageUrl.data ∧ ' ' ∉ pushMessageUrl.data) ∧
    ("http://msg.umeng.com/".data <+: pushTaskStatusUrl.data
      ∧ ' ' ∉ pushTaskStatusUrl.data) ∧
    ("http://msg.umeng.com/".data <+: pushFileUploadUrl.data
      ∧ ' ' ∉ pushFileUploadUrl.data) := by
  refine ⟨rfl, ?_, by decide, by decide, by decide⟩
  intro h
  have e : (pushTaskCacelUrl ++ "?sign=" ++ sign p "POST" pushTaskCacelUrl body).data
      = ' ' :: ("http://msg.umeng.com/api/cancel?sign=".data
          ++ (sign p "POST" pushTaskCacelUrl body).data) := rfl
  rw [e] at h
  obtain ⟨r, hr⟩ := h
  have h2 := congrArg List.head? hr
  simp at h2

/-- C18, at the failing input: for the platform value 2 and a policy map that holds
`out_biz_no`, `Push` builds the payload of the iOS shape (an `aps` entry, no
`display_type`) and keeps `out_biz_no` in the copied policy. -/
theorem Push_platform_two_mismatch :
    Push.payload (Policy (NewPush PushType_Unicast MsgType_Notification "ak1" "sec1")
        "out_biz_no" (Value.str "b1")) 2
      = [("aps", Value.anyMap none)] ∧
    Push.policy (Policy (NewPush PushType_Unicast MsgType_Notification "ak1" "sec1")
        "out_biz_no" (Value.str "b1")) 2
      = [("out_biz_no", Value.str "b1")] ∧
    (Push.assemble (Policy (NewPush PushType_Unicast MsgType_Notification "ak1" "sec1")
        "out_biz_no" (Value.str "b1")) 2 0).message
      = [("appkey", Value.str "ak1"), ("type", Value.str "unicast"),
          ("timestamp", Value.str "0"),
          ("payload", Value.anyMap (some [("aps", Value.anyMap none)])),
          ("policy", Value.anyMap (some [("out_biz_no", Value.str "b1")]))] ∧
    Push.policy (Policy (NewPush PushType_Unicast MsgType_Notification "ak1" "sec1")
        "out_biz_no" (Value.str "b1")) Platform_iOS
      = [] :=
  ⟨rfl, rfl, rfl, rfl⟩

end Umeng
